import Mathlib

/-!
Verification of the job-queue / worker-fleet subsystem of the
arduino-mcp-test-suite repository, shallowly embedded in Lean 4.

Conventions of the embedding:
* The JSON-file-backed stores (`data/jobs.json`, `data/workers.json`,
  `data/worker-registry.json`) are modelled as plain Lean lists; an
  operation that reads the file, transforms the array and rewrites the
  file becomes a pure function `input -> store -> result × store`.
* `new Date().toISOString()` timestamps are passed in explicitly as a
  `now : String` argument; the code orders ISO-8601 strings with
  `localeCompare`, which on such strings is lexicographic order, so we
  use the lexicographic `<` / `≤` on `String`.
* Randomness (fresh token generation) is passed in as an explicit
  `token` argument; the SHA-256 hash is an explicit function parameter
  `hash : String → String`.
* Fallible operations return `Option` (undefined = `none`) or
  `Except String` (a thrown `Error` = `Except.error message`),
  mirroring the TypeScript control flow.
-/

namespace McpEval

/-! ## Data model (src/apps/web/lib/types.ts) -/

/-- Job lifecycle status, from `JobStatus` in src/apps/web/lib/types.ts. -/
inductive JobStatus where
  | queued
  | running
  | completed
  | failed
  | cancelled
deriving DecidableEq, Repr, BEq

/-- Audit-trail entry, from `JobEvent` in src/apps/web/lib/types.ts.
The TypeScript field `at` is a Lean keyword, so it is rendered `atTime`. -/
structure JobEvent where
  atTime : String
  level : String
  message : String
deriving DecidableEq, Repr, BEq

/-- Job record, from `EvalJob` in src/apps/web/lib/types.ts. The opaque
`config` payload is never inspected by the queue, so it is modelled as an
opaque `String`. Optional fields are `Option`s. -/
structure EvalJob where
  id : String
  status : JobStatus
  createdAt : String
  updatedAt : String
  team : String
  submittedBy : String
  config : String
  events : List JobEvent
  workerId : Option String
  startedAt : Option String
  finishedAt : Option String
  errorMessage : Option String
  reportId : Option String
deriving DecidableEq, Repr, BEq

/-! ## Job store (src/apps/web/lib/jobStore.ts) -/

/-- Test used by `claimNextQueuedJob`: `job.status === 'queued'`. -/
def isQueued (job : EvalJob) : Bool :=
  job.status == JobStatus.queued

/-- Accumulator step selecting the earlier-created of two jobs, keeping the
earlier-listed one on ties. Folding this over the queued jobs computes the
head of `jobs.filter(queued).sort((a, b) => a.createdAt.localeCompare(b.createdAt))`
from jobStore.ts lines 64-66: a JavaScript sort is stable, so the head of the
ascending-sorted array is exactly the first-listed job of minimal `createdAt`. -/
def pickOlder (acc : Option EvalJob) (job : EvalJob) : Option EvalJob :=
  match acc with
  | none => some job
  | some best => if job.createdAt < best.createdAt then some job else some best

/-- Selection made by `claimNextQueuedJob` (jobStore.ts lines 64-66): the
first-listed queued job with minimal `createdAt`, or `none` when no job is
queued. -/
def oldestQueued (jobs : List EvalJob) : Option EvalJob :=
  (jobs.filter isQueued).foldl pickOlder none

/-- Event appended on claim: `{ at: now, level: 'info', message: `Claimed by ${workerId}` }`
(jobStore.ts lines 73-77). -/
def claimedByEvent (workerId now : String) : JobEvent :=
  { atTime := now, level := "info", message := "Claimed by " ++ workerId }

/-- Per-job update applied to the selected job by `claimNextQueuedJob`
(jobStore.ts lines 83-90). -/
def claimUpdate (workerId now : String) (job : EvalJob) : EvalJob :=
  { job with
    status := JobStatus.running
    workerId := some workerId
    startedAt := some now
    updatedAt := now
    events := job.events ++ [claimedByEvent workerId now] }

/-- Translation of `claimNextQueuedJob` (jobStore.ts lines 62-95). The read
snapshot is the `jobs` argument; the returned pair is
(returned job, array written back to jobs.json). When nothing is queued the
store is left as read and `undefined` (= `none`) is returned. -/
def claimNextQueuedJob (workerId now : String) (jobs : List EvalJob) :
    Option EvalJob × List EvalJob :=
  match oldestQueued jobs with
  | none => (none, jobs)
  | some queuedJob =>
    let updatedJobs := jobs.map fun job =>
      if job.id == queuedJob.id then claimUpdate workerId now job else job
    (updatedJobs.find? fun job => job.id == queuedJob.id, updatedJobs)

/-- Per-job update applied by `appendJobEvent` (jobStore.ts lines 106-110):
bump `updatedAt` to the event time and append the event. -/
def appendUpdate (event : JobEvent) (job : EvalJob) : EvalJob :=
  { job with updatedAt := event.atTime, events := job.events ++ [event] }

/-- Translation of `appendJobEvent` (jobStore.ts lines 97-120). The source
maps over the array updating every job whose id matches, recording the
updated job in a mutable `updatedJob` variable (so after the map it holds the
update of the last matching job), and returns `undefined` without writing
when no job matched. Since the update preserves `id`, that variable equals
the last element of the matching jobs of the mapped array, which is how it is
rendered here. `none` means not-found and the store is left unchanged. -/
def appendJobEvent (jobId : String) (event : JobEvent) (jobs : List EvalJob) :
    Option (EvalJob × List EvalJob) :=
  let updatedJobs := jobs.map fun job =>
    if job.id == jobId then appendUpdate event job else job
  match (updatedJobs.filter fun job => job.id == jobId).getLast? with
  | none => none
  | some updatedJob => some (updatedJob, updatedJobs)

/-- Iterated event appending: the effect on the store of a sequence of
calls to the append-event endpoint (each call re-reads the store written by
the previous one), used to state order preservation of the audit trail. A
call that returns not-found leaves the store unchanged, as in the source. -/
def appendEventsLoop (jobId : String) (events : List JobEvent) (jobs : List EvalJob) :
    List EvalJob :=
  events.foldl
    (fun store event =>
      match appendJobEvent jobId event store with
      | none => store
      | some r => r.2)
    jobs

/-- Status argument of `completeJob`: `'completed' | 'failed'`. -/
inductive CompletionStatus where
  | completed
  | failed
deriving DecidableEq, Repr, BEq

/-- Injection of the completion status into the job status. -/
def CompletionStatus.toJobStatus : CompletionStatus → JobStatus
  | CompletionStatus.completed => JobStatus.completed
  | CompletionStatus.failed => JobStatus.failed

/-- Input record of `completeJob` (jobStore.ts lines 122-127). -/
structure CompleteInput where
  jobId : String
  status : CompletionStatus
  errorMessage : Option String
  reportId : Option String
deriving DecidableEq, Repr

/-- Summary event appended by `completeJob` (jobStore.ts lines 137-141).
When `errorMessage` is absent, JavaScript template interpolation renders it
as the string "undefined", hence `getD "undefined"`. -/
def completionEvent (input : CompleteInput) (now : String) : JobEvent :=
  { atTime := now
    level := match input.status with
      | CompletionStatus.completed => "info"
      | CompletionStatus.failed => "error"
    message := match input.status with
      | CompletionStatus.completed => "Job completed"
      | CompletionStatus.failed => "Job failed: " ++ input.errorMessage.getD "undefined" }

/-- Per-job update applied by `completeJob` (jobStore.ts lines 143-151).
Note that it is applied unconditionally to the matching job: there is no
check of the job's current status. -/
def completeUpdate (input : CompleteInput) (now : String) (job : EvalJob) : EvalJob :=
  { job with
    status := input.status.toJobStatus
    updatedAt := now
    finishedAt := some now
    errorMessage := input.errorMessage
    reportId := input.reportId
    events := job.events ++ [completionEvent input now] }

/-- Translation of `completeJob` (jobStore.ts lines 122-161), with the same
map / last-matching-job / not-found rendering as `appendJobEvent`. -/
def completeJob (input : CompleteInput) (now : String) (jobs : List EvalJob) :
    Option (EvalJob × List EvalJob) :=
  let updatedJobs := jobs.map fun job =>
    if job.id == input.jobId then completeUpdate input now job else job
  match (updatedJobs.filter fun job => job.id == input.jobId).getLast? with
  | none => none
  | some updatedJob => some (updatedJob, updatedJobs)

/-! ## Worker directory (src/apps/web/lib/workerStore.ts) -/

/-- Worker status, `'idle' | 'busy'`. -/
inductive WorkerState where
  | idle
  | busy
deriving DecidableEq, Repr, BEq

/-- Worker directory row, from `WorkerInfo` in src/apps/web/lib/types.ts. -/
structure WorkerInfo where
  workerId : String
  status : WorkerState
  currentJobId : Option String
  host : Option String
  version : Option String
  lastSeenAt : String
deriving DecidableEq, Repr, BEq

/-- Input of `upsertWorkerHeartbeat` (workerStore.ts lines 34-40). -/
structure HeartbeatInput where
  workerId : String
  status : WorkerState
  currentJobId : Option String
  host : Option String
  version : Option String
deriving DecidableEq, Repr

/-- Per-row update applied by `upsertWorkerHeartbeat` to an existing row
(workerStore.ts lines 50-57): `status` and `currentJobId` are overwritten
(the latter possibly with `undefined`), `host`/`version` fall back to the
stored value (`input.host ?? worker.host`), `lastSeenAt` is bumped. -/
def heartbeatUpdate (input : HeartbeatInput) (now : String) (worker : WorkerInfo) : WorkerInfo :=
  { worker with
    status := input.status
    currentJobId := input.currentJobId
    host := match input.host with
      | some h => some h
      | none => worker.host
    version := match input.version with
      | some v => some v
      | none => worker.version
    lastSeenAt := now }

/-- Fresh row created by `upsertWorkerHeartbeat` on first contact
(workerStore.ts lines 62-69). -/
def freshWorker (input : HeartbeatInput) (now : String) : WorkerInfo :=
  { workerId := input.workerId
    status := input.status
    currentJobId := input.currentJobId
    host := input.host
    version := input.version
    lastSeenAt := now }

/-- Translation of `upsertWorkerHeartbeat` (workerStore.ts lines 34-75): map
over the rows updating every matching one (the mutable `upserted` variable
ends as the update of the last matching row); when no row matched, push a
fresh row. Returns (row reported to the caller, array written back). -/
def upsertWorkerHeartbeat (input : HeartbeatInput) (now : String)
    (workers : List WorkerInfo) : WorkerInfo × List WorkerInfo :=
  let updatedWorkers := workers.map fun worker =>
    if worker.workerId == input.workerId then heartbeatUpdate input now worker else worker
  match (updatedWorkers.filter fun worker => worker.workerId == input.workerId).getLast? with
  | some upserted => (upserted, updatedWorkers)
  | none => (freshWorker input now, updatedWorkers ++ [freshWorker input now])

/-! ## Worker credential registry (src/apps/web/lib/workerRegistryStore.ts) -/

/-- Credential row, from `WorkerRegistryEntry` in workerRegistryStore.ts. -/
structure WorkerRegistryEntry where
  workerId : String
  tokenHash : String
  createdAt : String
  revokedAt : Option String
deriving DecidableEq, Repr, BEq

/-- Translation of `registerWorkerToken` (workerRegistryStore.ts lines
37-48): drop every existing row of this worker, then push a fresh row
holding only the hash of the freshly generated token. The generated random
token is the explicit `token` argument; the plaintext is returned together
with the array written back. -/
def registerWorkerToken (hash : String → String) (workerId token now : String)
    (entries : List WorkerRegistryEntry) : String × List WorkerRegistryEntry :=
  let updated := entries.filter fun entry => !(entry.workerId == workerId)
  (token, updated ++ [{ workerId := workerId, tokenHash := hash token,
                        createdAt := now, revokedAt := none }])

/-- Translation of `rotateWorkerToken` (workerRegistryStore.ts lines 50-52):
it simply calls `registerWorkerToken`. -/
def rotateWorkerToken (hash : String → String) (workerId token now : String)
    (entries : List WorkerRegistryEntry) : String × List WorkerRegistryEntry :=
  registerWorkerToken hash workerId token now entries

/-- Translation of `revokeWorkerToken` (workerRegistryStore.ts lines 54-77):
stamp `revokedAt` on every row of this worker; throw `Worker not found: ...`
(here: `Except.error`) when no row matched, in which case nothing is written. -/
def revokeWorkerToken (workerId now : String) (entries : List WorkerRegistryEntry) :
    Except String (List WorkerRegistryEntry) :=
  if entries.any (fun entry => entry.workerId == workerId) then
    Except.ok (entries.map fun entry =>
      if entry.workerId == workerId then { entry with revokedAt := some now } else entry)
  else
    Except.error ("Worker not found: " ++ workerId)

/-- Translation of `verifyWorkerToken` (workerRegistryStore.ts lines 86-94):
find the first row of this worker; answer `false` when there is none or it
is revoked; otherwise compare the hash of the presented token with the
stored hash. -/
def verifyWorkerToken (hash : String → String) (workerId token : String)
    (entries : List WorkerRegistryEntry) : Bool :=
  match entries.find? (fun entry => entry.workerId == workerId) with
  | none => false
  | some entry =>
    match entry.revokedAt with
    | some _ => false
    | none => hash token == entry.tokenHash

/-! ## API authentication (src/apps/web/lib/apiAuth.ts) -/

/-- Translation of `checkAuthHeader` (apiAuth.ts lines 1-13). The
environment variable `process.env.INGEST_API_KEY` is the explicit
`envIngestApiKey` argument; JavaScript treats both `undefined` and the empty
string as falsy in `if (!expected)`, hence the extra empty-string branch.
`authHeader.slice('Bearer '.length)` is `String.drop 7`. -/
def checkAuthHeader (envIngestApiKey : Option String) (authHeader : Option String) : Bool :=
  match envIngestApiKey with
  | none => true
  | some expected =>
    if expected == "" then true
    else
      match authHeader with
      | none => false
      | some header =>
        if header.startsWith "Bearer " then header.drop 7 == expected else false

/-- Translation of `checkAdminAuthHeader` (apiAuth.ts lines 15-27):
identical to `checkAuthHeader` except that a missing (or empty) configured
secret yields `false` instead of `true`. -/
def checkAdminAuthHeader (envIngestApiKey : Option String) (authHeader : Option String) : Bool :=
  match envIngestApiKey with
  | none => false
  | some expected =>
    if expected == "" then false
    else
      match authHeader with
      | none => false
      | some header =>
        if header.startsWith "Bearer " then header.drop 7 == expected else false

/-! ## Worker agent loop

The repository holds two variants of the `run-worker` polling client: the
older heartbeat-free one in src/apps/cli/src/worker.ts, and the current one
(an unnamed source file) that adds `--worker-token` authentication —
matching the control plane's worker-token auth, registry routes and
managed-workers UI — and `sendHeartbeat` posts to `/api/workers`. Both
variants share the same `try`/`catch` structure around job execution, with
the single-shot unprotected `markFailed` in the `catch`; the job-fate model
below (`handleClaimedJob`) captures that shared structure, and the request
traces further below follow the current heartbeat-sending variant.

Every network call is an `await fetch` that can reject (connection refused,
timeout), raising an exception at that await point. We model the outcome of
each call as an explicit environment and translate the control flow
exactly. -/

/-- Outcome of one network call attempt: the `fetch` resolved, or it
rejected (a transient network failure), which raises an exception carrying
a message. -/
inductive NetOutcome where
  | ok
  | netFail (msg : String)
deriving DecidableEq, Repr

/-- Environment of one claimed-job handling pass (worker.ts lines 163-210):
the fates of the five external interactions, in program order.
`execResult` is `runSuite` (worker.ts lines 173-182), which either returns
a report or throws; the report's content is irrelevant here.
`completeCall` is `markCompleted`, which throws both on a rejected fetch and
on a non-ok response (worker.ts lines 119-122); `failCall` is `markFailed`,
whose fetch can reject but whose response status is never inspected
(worker.ts lines 87-98). -/
structure WorkerEnv where
  postStarted : NetOutcome
  execResult : Except String Unit
  postFinished : NetOutcome
  completeCall : NetOutcome
  postError : NetOutcome
  failCall : NetOutcome
deriving Repr

/-- Terminal fate of the claimed job as recorded by the control plane after
the handling pass. -/
inductive JobFinal where
  | stillRunning
  | failedReported (msg : String)
  | completedReported
deriving DecidableEq, Repr

/-- Fate of the worker process after the handling pass: it either proceeds
to the next loop iteration or crashes on an uncaught exception. -/
inductive WorkerAfter where
  | continues
  | crashed (msg : String)
deriving DecidableEq, Repr

/-- Translation of the `catch` block (worker.ts lines 200-210): post an
error event, then call `markFailed`. Both awaits sit outside any further
`try`, so if either fetch rejects the exception is uncaught: the loop exits,
`program.parseAsync` rejects, the process dies (worker.ts lines 218-221) and
the job is never moved out of `running`. -/
def catchPath (env : WorkerEnv) (msg : String) : JobFinal × WorkerAfter :=
  match env.postError with
  | NetOutcome.netFail m => (JobFinal.stillRunning, WorkerAfter.crashed m)
  | NetOutcome.ok =>
    match env.failCall with
    | NetOutcome.netFail m => (JobFinal.stillRunning, WorkerAfter.crashed m)
    | NetOutcome.ok => (JobFinal.failedReported msg, WorkerAfter.continues)

/-- Translation of the `try` block plus its `catch` (worker.ts lines
163-210), for a job the worker has just claimed. -/
def handleClaimedJob (env : WorkerEnv) : JobFinal × WorkerAfter :=
  match env.postStarted with
  | NetOutcome.netFail m => catchPath env m
  | NetOutcome.ok =>
    match env.execResult with
    | Except.error m => catchPath env m
    | Except.ok _ =>
      match env.postFinished with
      | NetOutcome.netFail m => catchPath env m
      | NetOutcome.ok =>
        match env.completeCall with
        | NetOutcome.netFail m => catchPath env m
        | NetOutcome.ok => (JobFinal.completedReported, WorkerAfter.continues)

/-- Control-plane HTTP requests the current `run-worker` variant can
attempt. It constructs requests to exactly four endpoint families:
`/api/jobs/claim` (claimNextJob), `/api/workers` (sendHeartbeat, carrying a
`status` of idle or busy and an optional `currentJobId`),
`/api/jobs/:id/events` (postJobEvent) and `/api/jobs/:id/complete`
(markFailed / markCompleted). Event messages embedding report data that is
not modelled (the finished-run score) are abbreviated. -/
inductive ControlCall where
  | claimRequest (workerId : String)
  | heartbeatRequest (workerId : String) (status : WorkerState) (currentJobId : Option String)
  | jobEventRequest (jobId level message : String)
  | completeRequest (jobId : String)
deriving DecidableEq, Repr

/-- Recognizer of heartbeat requests. -/
def isHeartbeatCall : ControlCall → Bool
  | ControlCall.heartbeatRequest _ _ _ => true
  | _ => false

/-- Recognizer of claim requests. -/
def isClaimCall : ControlCall → Bool
  | ControlCall.claimRequest _ => true
  | _ => false

/-- Whether a network call attempt resolved. -/
def netOk : NetOutcome → Bool
  | NetOutcome.ok => true
  | NetOutcome.netFail _ => false

/-- Environment of one claimed-job handling pass of the current
`run-worker` variant: the fates of its nine external interactions, in
program order. Inside the `try`: the busy heartbeat, the started event,
`runSuite`, the finished event, `markCompleted` (which throws both on a
rejected fetch and on a non-ok response) and the trailing idle heartbeat
(whose rejection, being inside the `try`, itself enters the `catch`).
Inside the `catch`: the error event, `markFailed` (fetch can reject; its
response status is never inspected) and the trailing idle heartbeat, all
three unprotected — a rejection there is uncaught and kills the process. -/
structure RunWorkerEnv where
  busyHeartbeat : NetOutcome
  postStarted : NetOutcome
  execResult : Except String Unit
  postFinished : NetOutcome
  completeCall : NetOutcome
  idleAfterComplete : NetOutcome
  postError : NetOutcome
  failCall : NetOutcome
  idleAfterFail : NetOutcome
deriving Repr

/-- Requests attempted by the `catch` block of the current variant, in
order: the error event, then the `markFailed` completion post, then the
idle heartbeat — each next attempt made only if the previous fetch did not
reject (a rejection here is uncaught). -/
def runWorkerCatchTrace (env : RunWorkerEnv) (workerId jobId msg : String) :
    List ControlCall :=
  ControlCall.jobEventRequest jobId "error" msg ::
    (match env.postError with
     | NetOutcome.netFail _ => []
     | NetOutcome.ok =>
       ControlCall.completeRequest jobId ::
         (match env.failCall with
          | NetOutcome.netFail _ => []
          | NetOutcome.ok =>
            [ControlCall.heartbeatRequest workerId WorkerState.idle none]))

/-- Requests attempted while handling one claimed job in the current
variant, in program order: the busy heartbeat carrying the claimed job id
comes first, immediately after the claim and before execution; the idle
heartbeat is attempted only after the completion report, or at the end of
the `catch` after the failure report. A rejected call inside the `try`
diverts to the `catch` with its message. -/
def claimedPassTrace (env : RunWorkerEnv) (workerId jobId : String) : List ControlCall :=
  ControlCall.heartbeatRequest workerId WorkerState.busy (some jobId) ::
    (match env.busyHeartbeat with
     | NetOutcome.netFail m => runWorkerCatchTrace env workerId jobId m
     | NetOutcome.ok =>
       ControlCall.jobEventRequest jobId "info"
           ("Worker " ++ workerId ++ " started run") ::
         (match env.postStarted with
          | NetOutcome.netFail m => runWorkerCatchTrace env workerId jobId m
          | NetOutcome.ok =>
            match env.execResult with
            | Except.error m => runWorkerCatchTrace env workerId jobId m
            | Except.ok _ =>
              ControlCall.jobEventRequest jobId "info" "Finished run" ::
                (match env.postFinished with
                 | NetOutcome.netFail m => runWorkerCatchTrace env workerId jobId m
                 | NetOutcome.ok =>
                   ControlCall.completeRequest jobId ::
                     (match env.completeCall with
                      | NetOutcome.netFail m => runWorkerCatchTrace env workerId jobId m
                      | NetOutcome.ok =>
                        ControlCall.heartbeatRequest workerId WorkerState.idle none ::
                          (match env.idleAfterComplete with
                           | NetOutcome.netFail m =>
                             runWorkerCatchTrace env workerId jobId m
                           | NetOutcome.ok => [])))))

/-- Whether the `catch` block runs to completion (all three unprotected
calls resolve), letting the loop proceed. -/
def catchPathContinues (env : RunWorkerEnv) : Bool :=
  netOk env.postError && netOk env.failCall && netOk env.idleAfterFail

/-- Whether a claimed-job pass ends with the worker process alive: either
the whole `try` resolves, or the first rejected call diverts to a `catch`
that runs to completion. -/
def claimedPassContinues (env : RunWorkerEnv) : Bool :=
  match env.busyHeartbeat with
  | NetOutcome.netFail _ => catchPathContinues env
  | NetOutcome.ok =>
    match env.postStarted with
    | NetOutcome.netFail _ => catchPathContinues env
    | NetOutcome.ok =>
      match env.execResult with
      | Except.error _ => catchPathContinues env
      | Except.ok _ =>
        match env.postFinished with
        | NetOutcome.netFail _ => catchPathContinues env
        | NetOutcome.ok =>
          match env.completeCall with
          | NetOutcome.netFail _ => catchPathContinues env
          | NetOutcome.ok =>
            match env.idleAfterComplete with
            | NetOutcome.netFail _ => catchPathContinues env
            | NetOutcome.ok => true

/-- One iteration of the current variant's polling loop: the claim attempt
answered with a 204 (`claimedJob = none`) or a job. A claim call that
itself rejects or returns a non-ok status throws outside any `try`, killing
the process before any further request: such a truncated run is modelled by
cutting the iteration list, as for any other crash. `emptyIdleHeartbeat` is
the fate of the idle heartbeat sent on the empty path, which is likewise
unprotected. -/
structure WorkerIteration where
  claimedJob : Option String
  emptyIdleHeartbeat : NetOutcome
  env : RunWorkerEnv
deriving Repr

/-- Requests attempted by one answered iteration, in program order: the
claim request, then — immediately — either the idle heartbeat of the empty
path or the claimed-job pass starting with its busy heartbeat. -/
def iterationTrace (workerId : String) (it : WorkerIteration) : List ControlCall :=
  ControlCall.claimRequest workerId ::
    (match it.claimedJob with
     | none => [ControlCall.heartbeatRequest workerId WorkerState.idle none]
     | some jobId => claimedPassTrace it.env workerId jobId)

/-- Whether the loop survives the iteration and polls again. -/
def iterationContinues (it : WorkerIteration) : Bool :=
  match it.claimedJob with
  | none => netOk it.emptyIdleHeartbeat
  | some _ => claimedPassContinues it.env

/-- Requests attempted by the loop across a schedule of iterations; a
crashed iteration ends the trace. (`--once` mode simply truncates the
schedule.) -/
def runWorkerLoopTrace (workerId : String) : List WorkerIteration → List ControlCall
  | [] => []
  | it :: rest =>
    iterationTrace workerId it ++
      (if iterationContinues it then runWorkerLoopTrace workerId rest else [])

/-- Requests attempted by a whole `run-worker` run: the pre-loop idle
heartbeat, then — if that unprotected call resolved — the loop. -/
def runWorkerTrace (preHeartbeat : NetOutcome) (workerId : String)
    (iters : List WorkerIteration) : List ControlCall :=
  ControlCall.heartbeatRequest workerId WorkerState.idle none ::
    (match preHeartbeat with
     | NetOutcome.netFail _ => []
     | NetOutcome.ok => runWorkerLoopTrace workerId iters)

/-- Scanner checking, given the preceding request `prev`, that every claim
request in the list is immediately preceded and immediately followed by a
heartbeat request. -/
def claimsBracketedAux (prev : ControlCall) : List ControlCall → Bool
  | [] => true
  | c :: rest =>
    (if isClaimCall c then
        isHeartbeatCall prev &&
          (match rest with
           | [] => false
           | nxt :: _ => isHeartbeatCall nxt)
      else true) &&
      claimsBracketedAux c rest

/-- Checks that every claim request in a trace is immediately preceded and
immediately followed by a heartbeat request (in particular the trace does
not start with a claim). -/
def claimsBracketed : List ControlCall → Bool
  | [] => true
  | c :: rest => !(isClaimCall c) && claimsBracketedAux c rest

/-- Scanner checking that an idle heartbeat is only ever attempted after a
completion (or failure) report: until the report, every heartbeat in the
list reports busy. -/
def idleOnlyAfterReport (seenReport : Bool) : List ControlCall → Bool
  | [] => true
  | ControlCall.completeRequest _ :: rest => idleOnlyAfterReport true rest
  | ControlCall.heartbeatRequest _ WorkerState.idle _ :: rest =>
    seenReport && idleOnlyAfterReport seenReport rest
  | _ :: rest => idleOnlyAfterReport seenReport rest

/-! ## Concurrency schedule for `claimNextQueuedJob`

`claimNextQueuedJob` performs `await readFile` (through `readJobs`), a pure
in-memory computation, and then `await writeFile` (jobStore.ts lines 63 and
93). The two awaits are suspension points of the Node event loop, so two
concurrently served claim requests can interleave as read-read-write-write:
both read the same snapshot of `jobs.json`, each computes its whole-file
update from that snapshot, and the second write replaces the first. The
file has no lock and no compare-and-swap. -/

/-- The read-read-write-write schedule of two concurrent claim calls: both
workers read `snapshot`, worker 1's write lands first and is then replaced
wholesale by worker 2's write. Returns (job received by worker 1, job
received by worker 2, final content of jobs.json). -/
def interleavedClaims (worker1 worker2 now1 now2 : String) (snapshot : List EvalJob) :
    Option EvalJob × Option EvalJob × List EvalJob :=
  let first := claimNextQueuedJob worker1 now1 snapshot
  let second := claimNextQueuedJob worker2 now2 snapshot
  (first.1, second.1, second.2)

/-! ## Concrete sample data used by the closed theorems -/

/-- Sample already-terminal job: completed, with a report reference. -/
def sampleCompletedJob : EvalJob :=
  { id := "j1"
    status := JobStatus.completed
    createdAt := "2026-01-01T00:00:00.000Z"
    updatedAt := "2026-01-01T00:02:00.000Z"
    team := "t"
    submittedBy := "alice"
    config := "cfg"
    events := []
    workerId := some "w1"
    startedAt := some "2026-01-01T00:01:00.000Z"
    finishedAt := some "2026-01-01T00:02:00.000Z"
    errorMessage := none
    reportId := some "R1" }

/-- Sample queued job, not yet claimed. -/
def sampleQueuedJob : EvalJob :=
  { id := "j1"
    status := JobStatus.queued
    createdAt := "2026-01-01T00:00:00.000Z"
    updatedAt := "2026-01-01T00:00:00.000Z"
    team := "t"
    submittedBy := "alice"
    config := "cfg"
    events := [{ atTime := "2026-01-01T00:00:00.000Z", level := "info", message := "Job queued" }]
    workerId := none
    startedAt := none
    finishedAt := none
    errorMessage := none
    reportId := none }

/-- Sample retried completion delivery: a `failed` outcome arriving for a
job that is already `completed`. -/
def sampleRetriedOutcome : CompleteInput :=
  { jobId := "j1"
    status := CompletionStatus.failed
    errorMessage := some "boom"
    reportId := none }

/-- Environment of a handling pass where the evaluation throws and the
single `markFailed` fetch then fails transiently. -/
def sampleFailingEnv : WorkerEnv :=
  { postStarted := NetOutcome.ok
    execResult := Except.error "suite crashed"
    postFinished := NetOutcome.ok
    completeCall := NetOutcome.ok
    postError := NetOutcome.ok
    failCall := NetOutcome.netFail "fetch failed: ECONNRESET" }

/-! ## Helper lemmas

All three stores use the same pattern: map over the collection updating
every element whose key (job id / worker id) matches, or look up / filter by
that key. The following lemmas cover this pattern for an abstract
`key : α → String`. -/

section KeyedUpdate

variable {α : Type}

/-- When no element of `l` carries key `k`, the conditional update leaves
`l` unchanged. -/
theorem map_update_of_key_not_mem (key : α → String) (f : α → α) (k : String)
    (l : List α) (h : ∀ x ∈ l, key x ≠ k) :
    (l.map fun x => if key x == k then f x else x) = l := by
  induction l with
  | nil => rfl
  | cons b t ih =>
    have hb : (key b == k) = false :=
      beq_eq_false_iff_ne.mpr (h b (List.mem_cons_self b t))
    simp only [List.map_cons, hb, if_neg, Bool.false_eq_true, if_false]
    exact congrArg (b :: ·) (ih fun x hx => h x (List.mem_cons_of_mem b hx))

/-- When no element of `l` carries key `k`, filtering for key `k` yields
nothing. -/
theorem filter_key_eq_nil (key : α → String) (k : String)
    (l : List α) (h : ∀ x ∈ l, key x ≠ k) :
    (l.filter fun x => key x == k) = [] := by
  rw [List.filter_eq_nil_iff]
  intro a ha
  simp only [beq_iff_eq]
  exact h a ha

/-- With pairwise-distinct keys, looking up key `k` in the conditionally
updated list finds exactly the update of the unique element carrying `k`. -/
theorem find?_key_map_update (key : α → String) (f : α → α) (k : String)
    (hf : ∀ a, key (f a) = key a) :
    ∀ l : List α, (l.map key).Nodup → ∀ a ∈ l, key a = k →
      ((l.map fun x => if key x == k then f x else x).find? fun x => key x == k) =
        some (f a) := by
  intro l
  induction l with
  | nil => intro _ a ha; exact absurd ha (List.not_mem_nil a)
  | cons b t ih =>
    intro hnd a ha hk
    rw [List.map_cons, List.nodup_cons] at hnd
    rcases List.mem_cons.mp ha with rfl | hat
    · have hb : (key a == k) = true := beq_iff_eq.mpr hk
      simp only [List.map_cons, hb, if_true, List.find?_cons]
      rw [hf a, hk]
      simp
    · have hbk : key b ≠ k := by
        intro hbk
        refine hnd.1 ?_
        rw [hbk, ← hk]
        exact List.mem_map_of_mem key hat
      have hb : (key b == k) = false := beq_eq_false_iff_ne.mpr hbk
      simp only [List.map_cons, hb, Bool.false_eq_true, if_false, List.find?_cons, hb]
      exact ih hnd.2 a hat hk

/-- With pairwise-distinct keys, filtering the conditionally updated list
for key `k` yields exactly the update of the unique element carrying `k`. -/
theorem filter_key_map_update (key : α → String) (f : α → α) (k : String)
    (hf : ∀ a, key (f a) = key a) :
    ∀ l : List α, (l.map key).Nodup → ∀ a ∈ l, key a = k →
      ((l.map fun x => if key x == k then f x else x).filter fun x => key x == k) =
        [f a] := by
  intro l
  induction l with
  | nil => intro _ a ha; exact absurd ha (List.not_mem_nil a)
  | cons b t ih =>
    intro hnd a ha hk
    rw [List.map_cons, List.nodup_cons] at hnd
    rcases List.mem_cons.mp ha with rfl | hat
    · have hb : (key a == k) = true := beq_iff_eq.mpr hk
      have ht : ∀ x ∈ t, key x ≠ k := by
        intro x hx hxk
        refine hnd.1 ?_
        rw [hk, ← hxk]
        exact List.mem_map_of_mem key hx
      have htid := map_update_of_key_not_mem key f k t ht
      have htnil := filter_key_eq_nil key k t ht
      simp only [List.map_cons, hb, if_true, List.filter_cons]
      rw [hf a, hk]
      simp only [beq_self_eq_true, if_true, htid, htnil]
    · have hbk : key b ≠ k := by
        intro hbk
        refine hnd.1 ?_
        rw [hbk, ← hk]
        exact List.mem_map_of_mem key hat
      have hb : (key b == k) = false := beq_eq_false_iff_ne.mpr hbk
      simp only [List.map_cons, hb, Bool.false_eq_true, if_false, List.filter_cons, hb]
      exact ih hnd.2 a hat hk

/-- Keys of the conditionally updated list coincide with the original keys. -/
theorem map_key_map_update (key : α → String) (f : α → α) (k : String)
    (hf : ∀ a, key (f a) = key a) (l : List α) :
    ((l.map fun x => if key x == k then f x else x).map key) = l.map key := by
  rw [List.map_map]
  refine List.map_congr_left fun a _ => ?_
  by_cases h : key a == k
  · simp only [Function.comp_apply, h, if_true, hf]
  · simp only [Function.comp_apply, h, Bool.false_eq_true, if_false]

/-- With pairwise-distinct keys, looking up key `k` finds the unique element
carrying `k`. -/
theorem find?_key_of_nodup (key : α → String) (k : String) :
    ∀ l : List α, (l.map key).Nodup → ∀ a ∈ l, key a = k →
      l.find? (fun x => key x == k) = some a := by
  intro l
  induction l with
  | nil => intro _ a ha; exact absurd ha (List.not_mem_nil a)
  | cons b t ih =>
    intro hnd a ha hk
    rw [List.map_cons, List.nodup_cons] at hnd
    rcases List.mem_cons.mp ha with rfl | hat
    · have hb : (key a == k) = true := beq_iff_eq.mpr hk
      simp [List.find?_cons, hb]
    · have hbk : key b ≠ k := by
        intro hbk
        refine hnd.1 ?_
        rw [hbk, ← hk]
        exact List.mem_map_of_mem key hat
      have hb : (key b == k) = false := beq_eq_false_iff_ne.mpr hbk
      simp only [List.find?_cons, hb]
      exact ih hnd.2 a hat hk

/-- An element delivered by `getLast?` of a filtered list satisfies the
filter predicate. -/
theorem pred_of_getLast?_filter (p : α → Bool) (l : List α) (u : α)
    (h : (l.filter p).getLast? = some u) : p u = true := by
  have hmem : u ∈ l.filter p := by
    obtain ⟨hn, rfl⟩ := List.mem_getLast?_eq_getLast (l := l.filter p) (x := u) h
    exact List.getLast_mem hn
  exact (List.mem_filter.mp hmem).2

end KeyedUpdate

/-- Folding `pickOlder` from a present base yields a minimal element of the
base and the traversed list, preferring earlier-listed elements on ties. -/
theorem foldl_pickOlder_spec :
    ∀ (l : List EvalJob) (b : EvalJob),
      ∃ r, l.foldl pickOlder (some b) = some r ∧ r ∈ b :: l ∧
        r.createdAt ≤ b.createdAt ∧ ∀ x ∈ l, r.createdAt ≤ x.createdAt := by
  intro l
  induction l with
  | nil =>
    intro b
    refine ⟨b, rfl, List.mem_cons_self b [], le_refl _, ?_⟩
    intro x hx
    exact absurd hx (List.not_mem_nil x)
  | cons j t ih =>
    intro b
    by_cases hlt : j.createdAt < b.createdAt
    · obtain ⟨r, h1, h2, h3, h4⟩ := ih j
      refine ⟨r, ?_, ?_, le_trans h3 (le_of_lt hlt), ?_⟩
      · rw [List.foldl_cons]
        simpa [pickOlder, hlt] using h1
      · rcases List.mem_cons.mp h2 with rfl | hrt
        · exact List.mem_cons_of_mem b (List.mem_cons_self r t)
        · exact List.mem_cons_of_mem b (List.mem_cons_of_mem j hrt)
      · intro x hx
        rcases List.mem_cons.mp hx with rfl | hxt
        · exact h3
        · exact h4 x hxt
    · obtain ⟨r, h1, h2, h3, h4⟩ := ih b
      refine ⟨r, ?_, ?_, h3, ?_⟩
      · rw [List.foldl_cons]
        simpa [pickOlder, hlt] using h1
      · rcases List.mem_cons.mp h2 with rfl | hrt
        · exact List.mem_cons_self r _
        · exact List.mem_cons_of_mem b (List.mem_cons_of_mem j hrt)
      · intro x hx
        rcases List.mem_cons.mp hx with rfl | hxt
        · exact le_trans h3 (not_lt.mp hlt)
        · exact h4 x hxt

/-- When some job is queued, `oldestQueued` delivers a queued job of
minimal `createdAt`. -/
theorem oldestQueued_spec (jobs : List EvalJob) (q : EvalJob)
    (hq : q ∈ jobs) (hqq : isQueued q = true) :
    ∃ chosen, oldestQueued jobs = some chosen ∧ chosen ∈ jobs ∧
      isQueued chosen = true ∧
      ∀ x ∈ jobs, isQueued x = true → chosen.createdAt ≤ x.createdAt := by
  have hmemf : q ∈ jobs.filter isQueued := List.mem_filter.mpr ⟨hq, hqq⟩
  obtain ⟨b, t, hbt⟩ := List.exists_cons_of_ne_nil (List.ne_nil_of_mem hmemf)
  obtain ⟨r, h1, h2, h3, h4⟩ := foldl_pickOlder_spec t b
  have hr : oldestQueued jobs = some r := by
    rw [oldestQueued, hbt, List.foldl_cons]
    simpa [pickOlder] using h1
  have hrf : r ∈ jobs.filter isQueued := hbt ▸ h2
  refine ⟨r, hr, (List.mem_filter.mp hrf).1, (List.mem_filter.mp hrf).2, ?_⟩
  intro x hx hxq
  have hxf : x ∈ jobs.filter isQueued := List.mem_filter.mpr ⟨hx, hxq⟩
  rw [hbt] at hxf
  rcases List.mem_cons.mp hxf with rfl | hxt
  · exact h3
  · exact h4 x hxt

/-- When no job is queued, `oldestQueued` is `none`. -/
theorem oldestQueued_eq_none (jobs : List EvalJob)
    (h : ∀ j ∈ jobs, ¬ isQueued j = true) :
    oldestQueued jobs = none := by
  rw [oldestQueued, List.filter_eq_nil_iff.mpr h]
  rfl

/-- With pairwise-distinct job ids, a single `appendJobEvent` for a present
job id returns the updated job together with the pointwise-updated store. -/
theorem appendJobEvent_of_mem (jobId : String) (event : JobEvent)
    (jobs : List EvalJob) (hnd : (jobs.map EvalJob.id).Nodup)
    (j : EvalJob) (hj : j ∈ jobs) (hjid : j.id = jobId) :
    appendJobEvent jobId event jobs =
      some (appendUpdate event j,
        jobs.map fun x => if x.id == jobId then appendUpdate event x else x) := by
  have hfilter := filter_key_map_update EvalJob.id (appendUpdate event) jobId
    (fun a => rfl) jobs hnd j hj hjid
  simp only [appendJobEvent, hfilter]
  rfl

/-- Iterating `appendJobEvent` over a sequence of events for a present job
id appends exactly that sequence, in order, to the job's audit trail, and
never changes its status. -/
theorem appendEventsLoop_find (jobId : String) :
    ∀ (events : List JobEvent) (jobs : List EvalJob), (jobs.map EvalJob.id).Nodup →
      ∀ j ∈ jobs, j.id = jobId →
      ∃ u, (appendEventsLoop jobId events jobs).find? (fun x => x.id == jobId) = some u ∧
        u.events = j.events ++ events ∧ u.status = j.status := by
  intro events
  induction events with
  | nil =>
    intro jobs hnd j hj hjid
    refine ⟨j, ?_, by simp, rfl⟩
    exact find?_key_of_nodup EvalJob.id jobId jobs hnd j hj hjid
  | cons e es ih =>
    intro jobs hnd j hj hjid
    have happ := appendJobEvent_of_mem jobId e jobs hnd j hj hjid
    have hstep : appendEventsLoop jobId (e :: es) jobs =
        appendEventsLoop jobId es
          (jobs.map fun x => if x.id == jobId then appendUpdate e x else x) := by
      simp only [appendEventsLoop, List.foldl_cons, happ]
    have hnd2 : ((jobs.map fun x => if x.id == jobId then appendUpdate e x else x).map
        EvalJob.id).Nodup := by
      rw [map_key_map_update EvalJob.id (appendUpdate e) jobId (fun a => rfl)]
      exact hnd
    have hmem2 : appendUpdate e j ∈
        jobs.map fun x => if x.id == jobId then appendUpdate e x else x := by
      have hfilter := filter_key_map_update EvalJob.id (appendUpdate e) jobId
        (fun a => rfl) jobs hnd j hj hjid
      have : appendUpdate e j ∈
          (jobs.map fun x => if x.id == jobId then appendUpdate e x else x).filter
            (fun x => x.id == jobId) := by
        rw [hfilter]
        exact List.mem_singleton_self _
      exact List.mem_of_mem_filter this
    obtain ⟨u, hu1, hu2, hu3⟩ := ih _ hnd2 (appendUpdate e j) hmem2 hjid
    refine ⟨u, hstep ▸ hu1, ?_, hu3⟩
    rw [hu2]
    simp [appendUpdate, List.append_assoc]

/-- Looking up a worker id right after `registerWorkerToken` finds the
fresh credential row: registration first drops every row of that worker and
then appends the fresh one, so it is the only row carrying the id. -/
theorem find?_after_register (w : String) (newEntry : WorkerRegistryEntry)
    (hw : newEntry.workerId = w) :
    ∀ entries : List WorkerRegistryEntry,
      ((entries.filter fun e => !(e.workerId == w)) ++ [newEntry]).find?
        (fun e => e.workerId == w) = some newEntry := by
  intro entries
  induction entries with
  | nil => simp [List.find?, beq_iff_eq.mpr hw]
  | cons b t ih =>
    by_cases hb : b.workerId = w
    · have hbt : (b.workerId == w) = true := beq_iff_eq.mpr hb
      simp only [List.filter_cons, hbt, Bool.not_true, Bool.false_eq_true, if_false]
      exact ih
    · have hbf : (b.workerId == w) = false := beq_eq_false_iff_ne.mpr hb
      simp only [List.filter_cons, hbf, Bool.not_false, if_true, List.cons_append,
        List.find?_cons, hbf]
      exact ih

/-- Every row found under a worker id after the revocation map carries the
revocation stamp. -/
theorem find?_after_revoke_map (w now : String) :
    ∀ (entries : List WorkerRegistryEntry) (e : WorkerRegistryEntry),
      ((entries.map fun x =>
          if x.workerId == w then { x with revokedAt := some now } else x).find?
        (fun x => x.workerId == w)) = some e → e.revokedAt = some now := by
  intro entries
  induction entries with
  | nil =>
    intro e h
    simp [List.find?] at h
  | cons b t ih =>
    intro e h
    by_cases hb : b.workerId = w
    · have hbt : (b.workerId == w) = true := beq_iff_eq.mpr hb
      simp only [List.map_cons, hbt, if_true, List.find?_cons, hbt] at h
      cases h
      rfl
    · have hbf : (b.workerId == w) = false := beq_eq_false_iff_ne.mpr hb
      simp only [List.map_cons, hbf, Bool.false_eq_true, if_false, List.find?_cons, hbf] at h
      exact ih e h

/-- After a successful revocation, no presented token verifies for that
worker. -/
theorem verify_false_after_revoke (hash : String → String) (w now tok : String)
    (entries s : List WorkerRegistryEntry)
    (h : revokeWorkerToken w now entries = Except.ok s) :
    verifyWorkerToken hash w tok s = false := by
  rw [revokeWorkerToken] at h
  by_cases hany : entries.any (fun e => e.workerId == w) = true
  · rw [if_pos hany] at h
    injection h with h
    subst h
    rcases hfind : ((entries.map fun x =>
        if x.workerId == w then { x with revokedAt := some now } else x).find?
          (fun x => x.workerId == w)) with _ | e
    · unfold verifyWorkerToken
      rw [hfind]
    · have hrev := find?_after_revoke_map w now entries e hfind
      unfold verifyWorkerToken
      rw [hfind]
      simp [hrev]
  · rw [if_neg hany] at h
    exact absurd h (by simp)

/-- Unfolding equation of the claims-bracketing scanner on a cons. -/
theorem claimsBracketedAux_cons (prev c : ControlCall) (l : List ControlCall) :
    claimsBracketedAux prev (c :: l) =
      ((if isClaimCall c then
          isHeartbeatCall prev &&
            (match l with
             | [] => false
             | nxt :: _ => isHeartbeatCall nxt)
        else true) &&
        claimsBracketedAux c l) := rfl

/-- Scanning a claim-free block leaves the bracketing check running with
the block's last element as the new predecessor. -/
theorem claimsBracketedAux_append_no_claim :
    ∀ body : List ControlCall, body.any isClaimCall = false →
      ∀ (x : ControlCall) (t : List ControlCall),
        claimsBracketedAux x (body ++ t) = claimsBracketedAux (body.getLastD x) t := by
  intro body
  induction body with
  | nil => intro _ x t; rfl
  | cons c cs ih =>
    intro h x t
    rw [List.any_cons] at h
    obtain ⟨hc, hcs⟩ := Bool.or_eq_false_iff.mp h
    rw [List.cons_append, List.getLastD_cons, claimsBracketedAux_cons, hc]
    simp only [Bool.false_eq_true, if_false, Bool.true_and]
    exact ih hcs c t

/-- A claim request followed by a claim-free block headed by a heartbeat
passes the bracketing check, given a heartbeat predecessor and a passing
continuation from the block's last element. -/
theorem claimsBracketedAux_claim_block (prev : ControlCall)
    (hprev : isHeartbeatCall prev = true) (workerId : String)
    (hb : ControlCall) (hhb : isHeartbeatCall hb = true)
    (body t : List ControlCall) (hnc : (hb :: body).any isClaimCall = false)
    (ht : claimsBracketedAux (body.getLastD hb) t = true) :
    claimsBracketedAux prev
      (ControlCall.claimRequest workerId :: ((hb :: body) ++ t)) = true := by
  have happ := claimsBracketedAux_append_no_claim (hb :: body) hnc
    (ControlCall.claimRequest workerId) t
  rw [List.getLastD_cons] at happ
  rw [claimsBracketedAux_cons, happ, ht]
  simp [isClaimCall, List.cons_append, hprev, hhb]

/-- No request of a claimed-job pass is a claim request. -/
theorem claimedPassTrace_no_claim (env : RunWorkerEnv) (workerId jobId : String) :
    (claimedPassTrace env workerId jobId).any isClaimCall = false := by
  rcases env with ⟨bh, ps, er, pf, cc, ic, pe, fc, ia⟩
  cases bh <;> cases ps <;> cases er <;> cases pf <;> cases cc <;> cases ic <;>
    cases pe <;> cases fc <;> rfl

/-- Whenever a claimed-job pass leaves the worker process alive, its last
attempted request is the trailing idle heartbeat — so the next claim
attempt of the loop is immediately preceded by a heartbeat. -/
theorem claimedPassTrace_getLast?_of_continues (env : RunWorkerEnv)
    (workerId jobId : String) (h : claimedPassContinues env = true) :
    (claimedPassTrace env workerId jobId).getLast? =
      some (ControlCall.heartbeatRequest workerId WorkerState.idle none) := by
  rcases env with ⟨bh, ps, er, pf, cc, ic, pe, fc, ia⟩
  cases bh <;> cases ps <;> cases er <;> cases pf <;> cases cc <;> cases ic <;>
    cases pe <;> cases fc <;> cases ia <;>
      first
        | rfl
        | simp [claimedPassContinues, catchPathContinues, netOk] at h

/-- Every run-loop trace passes the bracketing scan from any heartbeat
predecessor: each claim attempt is immediately preceded and immediately
followed by a heartbeat request. -/
theorem claimsBracketedAux_runWorkerLoop (workerId : String) :
    ∀ (iters : List WorkerIteration) (prev : ControlCall),
      isHeartbeatCall prev = true →
      claimsBracketedAux prev (runWorkerLoopTrace workerId iters) = true := by
  intro iters
  induction iters with
  | nil => intro prev _; rfl
  | cons it rest ih =>
    intro prev hprev
    rcases it with ⟨claimed, emptyHb, env⟩
    cases claimed with
    | none =>
      cases hEmp : netOk emptyHb with
      | true =>
        have hloop : runWorkerLoopTrace workerId
            ({ claimedJob := none, emptyIdleHeartbeat := emptyHb, env := env } :: rest) =
            ControlCall.claimRequest workerId ::
              ((ControlCall.heartbeatRequest workerId WorkerState.idle none :: []) ++
                runWorkerLoopTrace workerId rest) := by
          simp [runWorkerLoopTrace, iterationTrace, iterationContinues, hEmp]
        rw [hloop]
        exact claimsBracketedAux_claim_block prev hprev workerId
          (ControlCall.heartbeatRequest workerId WorkerState.idle none) rfl [] _ rfl
          (ih (ControlCall.heartbeatRequest workerId WorkerState.idle none) rfl)
      | false =>
        have hloop : runWorkerLoopTrace workerId
            ({ claimedJob := none, emptyIdleHeartbeat := emptyHb, env := env } :: rest) =
            ControlCall.claimRequest workerId ::
              ((ControlCall.heartbeatRequest workerId WorkerState.idle none :: []) ++ []) := by
          simp [runWorkerLoopTrace, iterationTrace, iterationContinues, hEmp]
        rw [hloop]
        exact claimsBracketedAux_claim_block prev hprev workerId
          (ControlCall.heartbeatRequest workerId WorkerState.idle none) rfl [] _ rfl rfl
    | some jobId =>
      have hnoclaim := claimedPassTrace_no_claim env workerId jobId
      obtain ⟨bodyRest, hbody⟩ : ∃ r, claimedPassTrace env workerId jobId =
          ControlCall.heartbeatRequest workerId WorkerState.busy (some jobId) :: r :=
        ⟨_, rfl⟩
      cases hcont : claimedPassContinues env with
      | true =>
        have hloop : runWorkerLoopTrace workerId
            ({ claimedJob := some jobId, emptyIdleHeartbeat := emptyHb, env := env } :: rest) =
            ControlCall.claimRequest workerId ::
              ((ControlCall.heartbeatRequest workerId WorkerState.busy (some jobId) ::
                  bodyRest) ++ runWorkerLoopTrace workerId rest) := by
          simp [runWorkerLoopTrace, iterationTrace, iterationContinues, hcont, hbody]
        have hlast : bodyRest.getLastD
            (ControlCall.heartbeatRequest workerId WorkerState.busy (some jobId)) =
            ControlCall.heartbeatRequest workerId WorkerState.idle none := by
          have h1 := claimedPassTrace_getLast?_of_continues env workerId jobId hcont
          rw [hbody, List.getLast?_cons] at h1
          rw [List.getLastD_eq_getLast?]
          exact Option.some.inj h1
        rw [hloop]
        refine claimsBracketedAux_claim_block prev hprev workerId
          (ControlCall.heartbeatRequest workerId WorkerState.busy (some jobId)) rfl bodyRest _
          (hbody ▸ hnoclaim) ?_
        rw [hlast]
        exact ih (ControlCall.heartbeatRequest workerId WorkerState.idle none) rfl
      | false =>
        have hloop : runWorkerLoopTrace workerId
            ({ claimedJob := some jobId, emptyIdleHeartbeat := emptyHb, env := env } :: rest) =
            ControlCall.claimRequest workerId ::
              ((ControlCall.heartbeatRequest workerId WorkerState.busy (some jobId) ::
                  bodyRest) ++ []) := by
          simp [runWorkerLoopTrace, iterationTrace, iterationContinues, hcont, hbody]
        rw [hloop]
        exact claimsBracketedAux_claim_block prev hprev workerId
          (ControlCall.heartbeatRequest workerId WorkerState.busy (some jobId)) rfl bodyRest _
          (hbody ▸ hnoclaim) rfl

/-! ## Theorems -/

/-- Claim C1: the spec states that `complete` on an already-terminal job
leaves its terminal status, `finishedAt`, `reportId` and `errorMessage`
unchanged, and that no registry operation moves a job out of a terminal
status. The code has no terminal-status guard in `completeJob`: retrying
`complete` with a `failed` outcome against an already-`completed` job
overwrites the status to `failed`, resets `finishedAt` to the new call time,
erases `reportId` and installs the new `errorMessage`. -/
theorem c1_completeJob_overwrites_terminal_state :
    ∃ u s,
      completeJob sampleRetriedOutcome "2026-01-01T00:03:00.000Z" [sampleCompletedJob] =
        some (u, s) ∧
      sampleCompletedJob.status = JobStatus.completed ∧
      sampleCompletedJob.finishedAt = some "2026-01-01T00:02:00.000Z" ∧
      sampleCompletedJob.reportId = some "R1" ∧
      sampleCompletedJob.errorMessage = none ∧
      u.id = "j1" ∧
      u.status = JobStatus.failed ∧
      u.finishedAt = some "2026-01-01T00:03:00.000Z" ∧
      u.reportId = none ∧
      u.errorMessage = some "boom" :=
  ⟨_, _, rfl, rfl, rfl, rfl, rfl, rfl, rfl, rfl, rfl, rfl⟩

/-- Claim C2: the spec states that concurrent `claimNext` calls serialize so
that each queued job is received by exactly one worker. Under the realizable
read-read-write-write interleaving of the two `await` points of
`claimNextQueuedJob`, both workers read the same snapshot holding one queued
job and both receive it: the job is claimed twice, and the surviving store
records only the second worker. -/
theorem c2_interleaved_claims_deliver_same_job_twice :
    ∃ a b,
      interleavedClaims "w1" "w2" "2026-01-01T00:01:00.000Z" "2026-01-01T00:01:00.000Z"
        [sampleQueuedJob] = (some a, some b, [b]) ∧
      a.id = "j1" ∧ b.id = "j1" ∧
      a.workerId = some "w1" ∧ b.workerId = some "w2" ∧
      a.status = JobStatus.running ∧ b.status = JobStatus.running :=
  ⟨_, _, rfl, rfl, rfl, rfl, rfl, rfl, rfl⟩

/-- Claim C4: the spec states that a claimed job always reaches a terminal
`failed` status with a captured message, even when the network calls
reporting back fail transiently. The `catch` block of the worker loop posts
the error event and calls `markFailed` exactly once each, with no retry and
outside any further `try`: when the evaluation throws and the single
`markFailed` fetch then rejects transiently, the exception is uncaught, the
worker process crashes, and the job is left `running` forever. -/
theorem c4_transient_report_failure_abandons_running_job :
    handleClaimedJob sampleFailingEnv =
      (JobFinal.stillRunning, WorkerAfter.crashed "fetch failed: ECONNRESET") :=
  rfl

/-- Claim C3: for every store state (with distinct job ids, as ids are
assigned uniquely at creation) and every `workerId`, `claimNextQueuedJob`
selects a queued job of minimal `createdAt` (the first-listed one on ties),
transitions exactly that job to `running`, binds `workerId`, sets
`startedAt`, and appends a claimed-by event carrying the worker id; when no
job is queued it returns `none` and leaves the store untouched — it is a
total function, never an error. -/
theorem c3_claimNext_selects_oldest_queued (workerId now : String) (jobs : List EvalJob)
    (huniq : (jobs.map EvalJob.id).Nodup) :
    ((∀ j ∈ jobs, ¬ isQueued j = true) →
        claimNextQueuedJob workerId now jobs = (none, jobs)) ∧
    (∀ q ∈ jobs, isQueued q = true →
      ∃ chosen, oldestQueued jobs = some chosen ∧ chosen ∈ jobs ∧
        isQueued chosen = true ∧
        (∀ x ∈ jobs, isQueued x = true → chosen.createdAt ≤ x.createdAt) ∧
        (claimNextQueuedJob workerId now jobs).1 =
          some (claimUpdate workerId now chosen) ∧
        (claimUpdate workerId now chosen).status = JobStatus.running ∧
        (claimUpdate workerId now chosen).workerId = some workerId ∧
        (claimUpdate workerId now chosen).startedAt = some now ∧
        (claimUpdate workerId now chosen).events =
          chosen.events ++ [claimedByEvent workerId now] ∧
        (claimNextQueuedJob workerId now jobs).2 =
          (jobs.map fun x =>
            if x.id == chosen.id then claimUpdate workerId now x else x)) := by
  constructor
  · intro h
    rw [claimNextQueuedJob, oldestQueued_eq_none jobs h]
  · intro q hq hqq
    obtain ⟨chosen, hch, hmem, hchq, hmin⟩ := oldestQueued_spec jobs q hq hqq
    have hfind := find?_key_map_update EvalJob.id (claimUpdate workerId now) chosen.id
      (fun a => rfl) jobs huniq chosen hmem rfl
    refine ⟨chosen, hch, hmem, hchq, hmin, ?_, rfl, rfl, rfl, rfl, ?_⟩
    · simp only [claimNextQueuedJob, hch]
      exact hfind
    · simp only [claimNextQueuedJob, hch]

/-- Witness for C3: on a store holding the single queued job
`sampleQueuedJob`, the claim call returns exactly that job claimed for
worker "w1"; on the empty store it returns `none`. -/
theorem c3_claimNext_selects_oldest_queued_witness :
    (claimNextQueuedJob "w1" "t0" [sampleQueuedJob]).1 =
      some (claimUpdate "w1" "t0" sampleQueuedJob) ∧
    claimNextQueuedJob "w1" "t0" [] = (none, []) := by
  constructor
  · obtain ⟨chosen, -, hmem, -, -, hfst, -, -, -, -, -⟩ :=
      (c3_claimNext_selects_oldest_queued "w1" "t0" [sampleQueuedJob]
        (by simp)).2 sampleQueuedJob (List.mem_singleton_self _) (by decide)
    rw [List.mem_singleton] at hmem
    exact hmem ▸ hfst
  · exact (c3_claimNext_selects_oldest_queued "w1" "t0" [] (by simp)).1
      (by intro j hj; exact absurd hj (List.not_mem_nil j))

/-- Claim C6: `appendJobEvent` appends exactly one event to the matching
job's audit trail and bumps `updatedAt` (to the event's timestamp) without
changing any job's status; it returns not-found (`none`, store untouched)
exactly when no stored job carries the id; it is accepted regardless of the
job's current status (the update does not inspect the status); and reading
the job back after any sequence of appended events yields them in call
order. -/
theorem c6_appendEvent_appends_in_order (jobId : String) (event : JobEvent)
    (jobs : List EvalJob) :
    ((∀ j ∈ jobs, j.id ≠ jobId) → appendJobEvent jobId event jobs = none) ∧
    ((jobs.map EvalJob.id).Nodup → ∀ j ∈ jobs, j.id = jobId →
      appendJobEvent jobId event jobs =
        some (appendUpdate event j,
          jobs.map fun x => if x.id == jobId then appendUpdate event x else x) ∧
      (appendUpdate event j).status = j.status ∧
      (appendUpdate event j).events = j.events ++ [event] ∧
      (appendUpdate event j).updatedAt = event.atTime ∧
      (∀ x ∈ jobs, x.id ≠ jobId →
        x ∈ jobs.map fun y => if y.id == jobId then appendUpdate event y else y)) ∧
    (∀ events : List JobEvent, (jobs.map EvalJob.id).Nodup → ∀ j ∈ jobs, j.id = jobId →
      ∃ u, (appendEventsLoop jobId events jobs).find? (fun x => x.id == jobId) = some u ∧
        u.events = j.events ++ events ∧ u.status = j.status) := by
  refine ⟨?_, ?_, ?_⟩
  · intro h
    have hid := map_update_of_key_not_mem EvalJob.id (appendUpdate event) jobId jobs h
    have hnil := filter_key_eq_nil EvalJob.id jobId jobs h
    simp only [appendJobEvent, hid, hnil]
    rfl
  · intro hnd j hj hjid
    refine ⟨appendJobEvent_of_mem jobId event jobs hnd j hj hjid, rfl, rfl, rfl, ?_⟩
    intro x hx hxid
    have hxb : (x.id == jobId) = false := beq_eq_false_iff_ne.mpr hxid
    have : x = if x.id == jobId then appendUpdate event x else x := by
      rw [hxb]
      simp
    rw [this]
    exact List.mem_map_of_mem _ hx
  · intro events hnd j hj hjid
    exact appendEventsLoop_find jobId events jobs hnd j hj hjid

/-- Witness for C6: on a store holding only `sampleQueuedJob` (id "j1"),
appending two events yields them back in call order, and an append for an
unknown id reports not-found. -/
theorem c6_appendEvent_appends_in_order_witness :
    (∃ u, (appendEventsLoop "j1"
        [{ atTime := "t1", level := "info", message := "one" },
         { atTime := "t2", level := "warning", message := "two" }]
        [sampleQueuedJob]).find? (fun x => x.id == "j1") = some u ∧
      u.events = sampleQueuedJob.events ++
        [{ atTime := "t1", level := "info", message := "one" },
         { atTime := "t2", level := "warning", message := "two" }] ∧
      u.status = sampleQueuedJob.status) ∧
    appendJobEvent "zz" { atTime := "t1", level := "info", message := "one" }
      [sampleQueuedJob] = none := by
  constructor
  · exact (c6_appendEvent_appends_in_order "j1"
      { atTime := "t1", level := "info", message := "one" } [sampleQueuedJob]).2.2
      [{ atTime := "t1", level := "info", message := "one" },
       { atTime := "t2", level := "warning", message := "two" }]
      (by simp) sampleQueuedJob (List.mem_singleton_self _) (by decide)
  · exact (c6_appendEvent_appends_in_order "zz"
      { atTime := "t1", level := "info", message := "one" } [sampleQueuedJob]).1
      (by intro j hj; rw [List.mem_singleton] at hj; rw [hj]; decide)

/-- Claim C7: `upsertWorkerHeartbeat` always succeeds (it is a total
function whose returned row carries the requested worker id); a heartbeat
for an unknown worker id appends exactly one fresh row; a heartbeat for a
known worker id (rows being keyed by distinct worker ids) updates that row's
`lastSeenAt`, `status` and `currentJobId` in place, leaving the row ids of
the store — and hence its length — unchanged, so no duplicate row is ever
created for the same worker id. -/
theorem c7_heartbeat_upserts_without_duplicates (input : HeartbeatInput) (now : String)
    (workers : List WorkerInfo) :
    (upsertWorkerHeartbeat input now workers).1.workerId = input.workerId ∧
    ((∀ w ∈ workers, w.workerId ≠ input.workerId) →
      upsertWorkerHeartbeat input now workers =
        (freshWorker input now, workers ++ [freshWorker input now])) ∧
    ((workers.map WorkerInfo.workerId).Nodup →
      ∀ w ∈ workers, w.workerId = input.workerId →
      upsertWorkerHeartbeat input now workers =
        (heartbeatUpdate input now w,
          workers.map fun x =>
            if x.workerId == input.workerId then heartbeatUpdate input now x else x) ∧
      ((upsertWorkerHeartbeat input now workers).2.map WorkerInfo.workerId) =
        workers.map WorkerInfo.workerId ∧
      (heartbeatUpdate input now w).lastSeenAt = now ∧
      (heartbeatUpdate input now w).status = input.status ∧
      (heartbeatUpdate input now w).currentJobId = input.currentJobId ∧
      (heartbeatUpdate input now w).workerId = w.workerId) := by
  refine ⟨?_, ?_, ?_⟩
  · unfold upsertWorkerHeartbeat
    rcases hgl : ((workers.map fun worker =>
        if worker.workerId == input.workerId then heartbeatUpdate input now worker
        else worker).filter fun worker =>
          worker.workerId == input.workerId).getLast? with _ | u
    · simp only [hgl]
      rfl
    · simp only [hgl]
      exact beq_iff_eq.mp (pred_of_getLast?_filter _ _ u hgl)
  · intro h
    have hid := map_update_of_key_not_mem WorkerInfo.workerId (heartbeatUpdate input now)
      input.workerId workers h
    have hnil := filter_key_eq_nil WorkerInfo.workerId input.workerId workers h
    simp only [upsertWorkerHeartbeat, hid, hnil]
    rfl
  · intro hnd w hw hwid
    have hfilter := filter_key_map_update WorkerInfo.workerId (heartbeatUpdate input now)
      input.workerId (fun a => rfl) workers hnd w hw hwid
    have hres : upsertWorkerHeartbeat input now workers =
        (heartbeatUpdate input now w,
          workers.map fun x =>
            if x.workerId == input.workerId then heartbeatUpdate input now x else x) := by
      simp only [upsertWorkerHeartbeat, hfilter]
      rfl
    refine ⟨hres, ?_, rfl, rfl, rfl, rfl⟩
    rw [hres]
    exact map_key_map_update WorkerInfo.workerId (heartbeatUpdate input now)
      input.workerId (fun a => rfl) workers

/-- Witness for C7: a first heartbeat from worker "w9" on the empty
directory creates its row; a second heartbeat for the known id "w9" updates
the row in place keeping a single row. -/
theorem c7_heartbeat_upserts_without_duplicates_witness :
    (upsertWorkerHeartbeat
        { workerId := "w9", status := WorkerState.idle, currentJobId := none,
          host := none, version := none } "t0" [] =
      (freshWorker
          { workerId := "w9", status := WorkerState.idle, currentJobId := none,
            host := none, version := none } "t0",
        [freshWorker
          { workerId := "w9", status := WorkerState.idle, currentJobId := none,
            host := none, version := none } "t0"])) ∧
    ((upsertWorkerHeartbeat
        { workerId := "w9", status := WorkerState.busy, currentJobId := some "j1",
          host := none, version := none } "t1"
        [freshWorker
          { workerId := "w9", status := WorkerState.idle, currentJobId := none,
            host := none, version := none } "t0"]).2.map WorkerInfo.workerId) = ["w9"] := by
  constructor
  · exact (c7_heartbeat_upserts_without_duplicates
      { workerId := "w9", status := WorkerState.idle, currentJobId := none,
        host := none, version := none } "t0" []).2.1
      (by intro w hw; exact absurd hw (List.not_mem_nil w))
  · exact ((c7_heartbeat_upserts_without_duplicates
      { workerId := "w9", status := WorkerState.busy, currentJobId := some "j1",
        host := none, version := none } "t1"
      [freshWorker
        { workerId := "w9", status := WorkerState.idle, currentJobId := none,
          host := none, version := none } "t0"]).2.2
      (by simp)
      (freshWorker
        { workerId := "w9", status := WorkerState.idle, currentJobId := none,
          host := none, version := none } "t0")
      (List.mem_singleton_self _) rfl).2.1

/-- Claim C5: the plaintext token returned by register (or rotate) verifies
true immediately afterwards; after a rotation the previously issued token
verifies false (provided its hash differs from the new token's hash, which
the 192-bit random token generation guarantees up to hash collision) while
the newly issued token verifies true; after a revocation every presented
token verifies false; and verification answers false for a worker whose
first credential row is revoked or for an unknown worker. -/
theorem c5_worker_token_lifecycle (hash : String → String)
    (entries : List WorkerRegistryEntry) (w t1 t2 now1 now2 now3 : String)
    (hneq : hash t1 ≠ hash t2) :
    verifyWorkerToken hash w t1 (registerWorkerToken hash w t1 now1 entries).2 = true ∧
    verifyWorkerToken hash w t1
      (rotateWorkerToken hash w t2 now2
        (registerWorkerToken hash w t1 now1 entries).2).2 = false ∧
    verifyWorkerToken hash w t2
      (rotateWorkerToken hash w t2 now2
        (registerWorkerToken hash w t1 now1 entries).2).2 = true ∧
    (∃ s3, revokeWorkerToken w now3
        (rotateWorkerToken hash w t2 now2
          (registerWorkerToken hash w t1 now1 entries).2).2 = Except.ok s3 ∧
      ∀ tok, verifyWorkerToken hash w tok s3 = false) ∧
    (∀ s : List WorkerRegistryEntry, (∀ e ∈ s, e.workerId ≠ w) →
      ∀ tok, verifyWorkerToken hash w tok s = false) ∧
    (∀ (s : List WorkerRegistryEntry) (e : WorkerRegistryEntry),
      s.find? (fun x => x.workerId == w) = some e → e.revokedAt.isSome = true →
      ∀ tok, verifyWorkerToken hash w tok s = false) := by
  have hfind1 := find?_after_register w
    { workerId := w, tokenHash := hash t1, createdAt := now1, revokedAt := none } rfl entries
  have hfind2 := find?_after_register w
    { workerId := w, tokenHash := hash t2, createdAt := now2, revokedAt := none }
    rfl ((entries.filter fun e => !(e.workerId == w)) ++
      [{ workerId := w, tokenHash := hash t1, createdAt := now1, revokedAt := none }])
  refine ⟨?_, ?_, ?_, ?_, ?_, ?_⟩
  · simp only [registerWorkerToken]
    unfold verifyWorkerToken
    rw [hfind1]
    exact beq_self_eq_true (hash t1)
  · simp only [rotateWorkerToken, registerWorkerToken]
    unfold verifyWorkerToken
    rw [hfind2]
    exact beq_eq_false_iff_ne.mpr hneq
  · simp only [rotateWorkerToken, registerWorkerToken]
    unfold verifyWorkerToken
    rw [hfind2]
    exact beq_self_eq_true (hash t2)
  · have hmem2 : (⟨w, hash t2, now2, none⟩ : WorkerRegistryEntry) ∈
        (rotateWorkerToken hash w t2 now2
          (registerWorkerToken hash w t1 now1 entries).2).2 :=
      List.mem_append_right _ (List.mem_singleton_self _)
    have hany : ((rotateWorkerToken hash w t2 now2
        (registerWorkerToken hash w t1 now1 entries).2).2.any
          (fun e => e.workerId == w)) = true :=
      List.any_eq_true.mpr ⟨_, hmem2, beq_self_eq_true w⟩
    have hrev : revokeWorkerToken w now3
        (rotateWorkerToken hash w t2 now2
          (registerWorkerToken hash w t1 now1 entries).2).2 =
        Except.ok ((rotateWorkerToken hash w t2 now2
          (registerWorkerToken hash w t1 now1 entries).2).2.map fun x =>
            if x.workerId == w then { x with revokedAt := some now3 } else x) := by
      unfold revokeWorkerToken
      rw [if_pos hany]
    exact ⟨_, hrev, fun tok => verify_false_after_revoke hash w now3 tok _ _ hrev⟩
  · intro s hs tok
    have hnone : s.find? (fun e => e.workerId == w) = none := by
      rw [List.find?_eq_none]
      intro x hx
      simpa using hs x hx
    unfold verifyWorkerToken
    rw [hnone]
  · intro s e hfind hsome tok
    obtain ⟨v, hv⟩ := Option.isSome_iff_exists.mp hsome
    unfold verifyWorkerToken
    rw [hfind]
    simp [hv]

/-- Witness for C5: the spec scenario for worker "w-east" with tokens "T1"
and "T2", at the identity hash (injective on the two concrete tokens). -/
theorem c5_worker_token_lifecycle_witness :
    verifyWorkerToken (fun s => s) "w-east" "T1"
      (registerWorkerToken (fun s => s) "w-east" "T1" "t0" []).2 = true ∧
    verifyWorkerToken (fun s => s) "w-east" "T1"
      (rotateWorkerToken (fun s => s) "w-east" "T2" "t1"
        (registerWorkerToken (fun s => s) "w-east" "T1" "t0" []).2).2 = false ∧
    verifyWorkerToken (fun s => s) "w-east" "T2"
      (rotateWorkerToken (fun s => s) "w-east" "T2" "t1"
        (registerWorkerToken (fun s => s) "w-east" "T1" "t0" []).2).2 = true ∧
    (∃ s3, revokeWorkerToken "w-east" "t2"
        (rotateWorkerToken (fun s => s) "w-east" "T2" "t1"
          (registerWorkerToken (fun s => s) "w-east" "T1" "t0" []).2).2 = Except.ok s3 ∧
      verifyWorkerToken (fun s => s) "w-east" "T2" s3 = false) ∧
    verifyWorkerToken (fun s => s) "w-east" "T1" [] = false := by
  obtain ⟨h1, h2, h3, ⟨s3, hs3, hall⟩, h5, -⟩ :=
    c5_worker_token_lifecycle (fun s => s) [] "w-east" "T1" "T2" "t0" "t1" "t2" (by decide)
  refine ⟨h1, h2, h3, ⟨s3, hs3, hall "T2"⟩, ?_⟩
  refine h5 [] ?_ "T1"
  intro e he
  exact absurd he (List.not_mem_nil e)

/-- Claim C9: `revokeWorkerToken` succeeds (stamping `revokedAt` on the
worker's rows) whenever the worker has at least one credential row, and
fails with the not-found error exactly when no credential row for the worker
exists — i.e. when the worker has never been registered, registration being
the only operation that creates rows. -/
theorem c9_revoke_requires_registration (workerId now : String)
    (entries : List WorkerRegistryEntry) :
    ((∃ e ∈ entries, e.workerId = workerId) →
      revokeWorkerToken workerId now entries =
        Except.ok (entries.map fun e =>
          if e.workerId == workerId then { e with revokedAt := some now } else e)) ∧
    ((∀ e ∈ entries, e.workerId ≠ workerId) →
      revokeWorkerToken workerId now entries =
        Except.error ("Worker not found: " ++ workerId)) := by
  constructor
  · rintro ⟨e, he, heid⟩
    have hany : entries.any (fun x => x.workerId == workerId) = true :=
      List.any_eq_true.mpr ⟨e, he, beq_iff_eq.mpr heid⟩
    unfold revokeWorkerToken
    rw [if_pos hany]
  · intro h
    have hany : ¬ entries.any (fun x => x.workerId == workerId) = true := by
      rw [List.any_eq_true]
      rintro ⟨e, he, heid⟩
      exact h e he (beq_iff_eq.mp heid)
    unfold revokeWorkerToken
    rw [if_neg hany]

/-- Witness for C9: revoking "w-east" succeeds on a store holding one
credential row for it (even an already-revoked one would do) and reports
not-found on the empty store. -/
theorem c9_revoke_requires_registration_witness :
    revokeWorkerToken "w-east" "t2"
      [{ workerId := "w-east", tokenHash := "h1", createdAt := "t0", revokedAt := none }] =
      Except.ok
        [{ workerId := "w-east", tokenHash := "h1", createdAt := "t0",
           revokedAt := some "t2" }] ∧
    revokeWorkerToken "w-east" "t2" [] =
      Except.error ("Worker not found: " ++ "w-east") := by
  constructor
  · have h := (c9_revoke_requires_registration "w-east" "t2"
      [{ workerId := "w-east", tokenHash := "h1", createdAt := "t0", revokedAt := none }]).1
      ⟨{ workerId := "w-east", tokenHash := "h1", createdAt := "t0", revokedAt := none },
        List.mem_singleton_self _, rfl⟩
    simpa using h
  · refine (c9_revoke_requires_registration "w-east" "t2" []).2 ?_
    intro e he
    exact absurd he (List.not_mem_nil e)

/-- Claim C8: in the current `run-worker` variant's polling loop, a
heartbeat is sent to the worker directory before and after each claim
attempt, and the reported status is busy for the entire duration of job
execution. Formally, over every schedule of answered claim attempts and
every fate of each network call: the whole-run request trace passes the
bracketing scan (every claim request is immediately preceded and
immediately followed by a heartbeat request — the pre-loop idle heartbeat
precedes the first claim, the idle heartbeats of the empty path and the
trailing ones of each pass precede later claims); the first request of a
claimed-job pass is the busy heartbeat carrying the claimed job id; and no
idle heartbeat is attempted before the completion (or failure) report, so
the directory's recorded status stays busy throughout execution. -/
theorem c8_heartbeats_bracket_claims_and_report_busy (preHeartbeat : NetOutcome)
    (workerId jobId : String) (env : RunWorkerEnv) (iters : List WorkerIteration) :
    claimsBracketed (runWorkerTrace preHeartbeat workerId iters) = true ∧
    (claimedPassTrace env workerId jobId).head? =
      some (ControlCall.heartbeatRequest workerId WorkerState.busy (some jobId)) ∧
    idleOnlyAfterReport false (claimedPassTrace env workerId jobId) = true := by
  refine ⟨?_, rfl, ?_⟩
  · cases preHeartbeat with
    | netFail m => rfl
    | ok =>
      have h := claimsBracketedAux_runWorkerLoop workerId iters
        (ControlCall.heartbeatRequest workerId WorkerState.idle none) rfl
      simp [runWorkerTrace, claimsBracketed, isClaimCall, h]
  · rcases env with ⟨bh, ps, er, pf, cc, ic, pe, fc, ia⟩
    cases bh <;> cases ps <;> cases er <;> cases pf <;> cases cc <;> cases ic <;>
      cases pe <;> cases fc <;> rfl

/-- Claim C10: when the admin secret environment variable `INGEST_API_KEY`
is unset, `checkAuthHeader` accepts every authorization header including a
missing one, while `checkAdminAuthHeader` rejects every authorization
header. -/
theorem c10_unset_secret_accepts_all_and_locks_admin (authHeader : Option String) :
    checkAuthHeader none authHeader = true ∧
      checkAdminAuthHeader none authHeader = false :=
  ⟨rfl, rfl⟩

end McpEval
